import Mathlib

/-!
Verification of the `nchu_ez` journal auto-filler (src/main.py, class `SeleniumBot`).

The development shallowly embeds the pure and control-flow core of the bot:

* the Gregorian calendar arithmetic behind `datetime` as used by
  `SeleniumBot.generate_dates` (daily stepping with `timedelta(days=1)`,
  date comparison, proleptic Gregorian leap rules, the `[1, 9999]` year range
  of `datetime`, and the `OverflowError` raised by stepping past
  `datetime.max`, modelled as `none`);
* the domestic-era ("民國") date conversion performed inline in
  `SeleniumBot.fill_journal_entry` (lines 963-966);
* the post-submission page-text classifier of `fill_journal_entry`
  (lines 1162-1172);
* the ordered fallback locator chains (`navigate_to_journal` lines 798-813,
  `fill_journal_entry` lines 975-1004), expressed as one first-hit resolver;
* per-day content derivation `SeleniumBot.generate_content` (lines 928-930,
  Python `str.strip`);
* the batch driver `SeleniumBot.auto_fill_journals` (lines 1183-1279),
  modelled as a deterministic function of an `Oracle` recording the results
  the browser environment would return (login success, navigation success,
  the per-day submission outcome, and the cooperative-cancellation callback),
  and producing both the returned result dictionary and the trace of
  callback invocations / collaborator calls it performs.
-/

namespace NchuEz

/-! ## Calendar model (Python `datetime`, proleptic Gregorian) -/

/-- A calendar date, as carried by Python `datetime` objects: year, month, day. -/
structure Date where
  year : Nat
  month : Nat
  day : Nat
deriving DecidableEq, Repr

/-- Gregorian leap-year rule used by `datetime`. -/
def isLeap (y : Nat) : Bool := (y % 4 == 0 && y % 100 != 0) || y % 400 == 0

/-- Month lengths as a function of the leap bit. -/
def monthLen (leap : Bool) (m : Nat) : Nat :=
  if m = 2 then (if leap then 29 else 28)
  else if m = 4 ∨ m = 6 ∨ m = 9 ∨ m = 11 then 30
  else 31

/-- Days in month `m` of year `y`. -/
def daysInMonth (y m : Nat) : Nat := monthLen (isLeap y) m

/-- Validity of a date, as enforced by `datetime.strptime` on `%Y-%m-%d`
input: `datetime` only represents years in `[MINYEAR, MAXYEAR] = [1, 9999]`. -/
def validDate (d : Date) : Bool :=
  decide (1 ≤ d.year ∧ d.year ≤ 9999 ∧ 1 ≤ d.month ∧ d.month ≤ 12 ∧ 1 ≤ d.day ∧
    d.day ≤ daysInMonth d.year d.month)

/-- Successor-day arithmetic (the in-range part of `+ timedelta(days=1)`;
see `dateAddOneDay` for the `OverflowError` boundary). -/
def nextDay (d : Date) : Date :=
  if d.day < daysInMonth d.year d.month then ⟨d.year, d.month, d.day + 1⟩
  else if d.month < 12 then ⟨d.year, d.month + 1, 1⟩
  else ⟨d.year + 1, 1, 1⟩

/-- `datetime.max`'s date, the last representable day: 9999-12-31. -/
def maxDate : Date := ⟨9999, 12, 31⟩

/-- `current + timedelta(days=1)` as Python executes it: the successor day,
or `none` for the `OverflowError` raised when the result would land past
`datetime.max` (i.e. exactly at 9999-12-31). -/
def dateAddOneDay (d : Date) : Option Date :=
  if (nextDay d).year ≤ 9999 then some (nextDay d) else none

/-- `datetime` comparison `a <= b`: lexicographic on (year, month, day). -/
def dateLe (a b : Date) : Prop :=
  a.year < b.year ∨ (a.year = b.year ∧
    (a.month < b.month ∨ (a.month = b.month ∧ a.day ≤ b.day)))

/-- Strict `datetime` comparison `a < b`. -/
def dateLt (a b : Date) : Prop :=
  a.year < b.year ∨ (a.year = b.year ∧
    (a.month < b.month ∨ (a.month = b.month ∧ a.day < b.day)))

instance (a b : Date) : Decidable (dateLe a b) := by unfold dateLe; infer_instance

instance (a b : Date) : Decidable (dateLt a b) := by unfold dateLt; infer_instance

/-- Total days in the months strictly before month `m` (parametric leap bit). -/
def monthsBefore (leap : Bool) : Nat → Nat
  | 0 => 0
  | 1 => 0
  | m + 2 => monthsBefore leap (m + 1) + monthLen leap (m + 1)

/-- Days in the months of year `y` strictly before month `m`. -/
def daysBeforeMonth (y m : Nat) : Nat := monthsBefore (isLeap y) m

/-- Number of leap years in `[1, t]`. -/
def leapsBefore (t : Nat) : Nat := t / 4 - t / 100 + t / 400

/-- Day number of a date (1 = January 1 of year 1), linearising `datetime`
ordering so the daily loop of `generate_dates` can be measured. -/
def toOrdinal (d : Date) : Nat :=
  365 * (d.year - 1) + leapsBefore (d.year - 1) + daysBeforeMonth d.year d.month + d.day

/-! ## `SeleniumBot.generate_dates` (src/main.py lines 915-926)

The Python loop `while current <= end: dates.append(current); current += 1 day`
is embedded with an explicit iteration count: `toOrdinal end_ + 1 - toOrdinal
start` is exactly the number of iterations the loop performs on valid dates
(zero when `start > end`, by `Nat` truncated subtraction), so the fueled
recursion below is extensionally the Python loop. The increment runs inside
the loop body after the append, so on a range whose last processed day is
9999-12-31 the increment raises `OverflowError` and the whole call raises
instead of returning a list — modelled as `none`. -/

/-- One unfolding of the `while current <= end` loop body per unit of fuel;
`none` is the `OverflowError` escaping from `current += timedelta(days=1)`. -/
def generate_dates_go (end_ : Date) : Nat → Date → Option (List Date)
  | 0, _ => some []
  | fuel + 1, current =>
    if dateLe current end_ then
      match dateAddOneDay current with
      | none => none
      | some next =>
        match generate_dates_go end_ fuel next with
        | none => none
        | some rest => some (current :: rest)
    else some []

/-- `SeleniumBot.generate_dates`: the list of consecutive days from
`start_date` to `end_date` inclusive (dates modelled structurally rather than
as their `%Y-%m-%d` renderings, which are in bijection with them), or `none`
when the loop's increment overflows past `datetime.max`. -/
def generate_dates (start_date end_date : Date) : Option (List Date) :=
  generate_dates_go end_date (toOrdinal end_date + 1 - toOrdinal start_date) start_date

/-! ## `SeleniumBot.generate_content` (src/main.py lines 928-930) -/

/-- Python `str.strip()`: drop whitespace from both ends (the common ASCII
whitespace characters; Python also strips a few rarer code points). -/
def pyStrip (s : String) : String :=
  String.mk (((s.data.dropWhile Char.isWhitespace).reverse.dropWhile
    Char.isWhitespace).reverse)

/-- `SeleniumBot.generate_content`: `return base_content.strip()` — the day
index is ignored. -/
def generate_content (base_content : String) (_index : Nat) : String :=
  pyStrip base_content

/-! ## Domestic-era date conversion (src/main.py lines 963-966)

`roc_year = date_obj.year - 1911; f"{roc_year:03d}{month:02d}{day:02d}"`. -/

/-- Python `"%0*d"` of a natural number: decimal digits, left-padded with
zeros to at least `width` characters (wider numbers are not truncated). -/
def padNum (width n : Nat) : String :=
  String.mk (List.replicate (width - (Nat.toDigits 10 n).length) '0' ++
    Nat.toDigits 10 n)

/-- The domestic-era ("民國") date string built by `fill_journal_entry`. -/
def toDomesticEra (d : Date) : String :=
  padNum 3 (d.year - 1911) ++ padNum 2 d.month ++ padNum 2 d.day

/-! ## Post-submission outcome classification (src/main.py lines 1162-1172) -/

/-- Positive markers scanned first in `fill_journal_entry`. -/
def positiveMarkers : List String := ["成功", "完成", "新增完成", "儲存成功", "success"]

/-- Negative markers scanned second. -/
def negativeMarkers : List String := ["錯誤", "失敗", "重複", "已存在", "error"]

/-- Does `sub` occur at the head of `l`? -/
def headMatch : List Char → List Char → Bool
  | [], _ => true
  | _ :: _, [] => false
  | a :: as, b :: bs => a == b && headMatch as bs

/-- Does `sub` occur contiguously anywhere in `l`? -/
def occursIn : List Char → List Char → Bool
  | [], sub => sub.isEmpty
  | c :: rest, sub => headMatch sub (c :: rest) || occursIn rest sub

/-- Python's `keyword in page_source` substring test. -/
def containsKeyword (page keyword : String) : Bool :=
  occursIn page.data keyword.data

/-- `any(keyword in page_source for keyword in markers)`. -/
def containsAny (page : String) (markers : List String) : Bool :=
  markers.any (containsKeyword page)

/-- The spec's three-way `SubmissionOutcome` view of the classifier. -/
inductive Outcome where
  | success
  | explicitFailure
  | ambiguous
deriving DecidableEq, Repr

/-- Classification of the post-submission page text: positive markers first,
then negative markers, else ambiguous. -/
def classify_outcome (page : String) : Outcome :=
  if containsAny page positiveMarkers then .success
  else if containsAny page negativeMarkers then .explicitFailure
  else .ambiguous

/-- The boolean actually returned by `fill_journal_entry` at lines 1164-1172:
`True` on a positive marker, `False` on a negative marker, and `True` in the
ambiguous fall-through. -/
def fill_entry_result (page : String) : Bool :=
  if containsAny page positiveMarkers then true
  else if containsAny page negativeMarkers then false
  else true

/-! ## Ordered fallback locator chains
(src/main.py lines 798-813 and 975-1004)

`navigate_to_journal` loops over `journal_selectors` trying each in turn, and
`fill_journal_entry` / `login` use nested try/except chains with the same
first-hit semantics; both are instances of the resolver below, where `env`
records which candidate (if any) the browser would resolve, and `none` models
a `TimeoutException` / `NoSuchElementException` for that candidate. -/

/-- One locator strategy plus selector (spec §3 `LocatorCandidate`). -/
structure LocatorCandidate where
  strategy : String
  selector : String
deriving DecidableEq, Repr

/-- First-hit resolution over an ordered candidate list. -/
def resolve {α : Type} (env : LocatorCandidate → Option α) :
    List LocatorCandidate → Option α
  | [] => none
  | c :: rest =>
    match env c with
    | some el => some el
    | none => resolve env rest

/-- The ordered candidate chain for the date field
(`fill_journal_entry` lines 975-987). -/
def dateFieldCandidates : List LocatorCandidate :=
  [⟨"id", "date"⟩, ⟨"name", "date"⟩,
    ⟨"css", "input[placeholder*=\x27民國yyymmdd\x27]"⟩]

/-- The ordered `journal_selectors` XPath chain
(`navigate_to_journal` lines 789-796). -/
def journal_selectors : List LocatorCandidate :=
  [⟨"xpath", "//a[contains(text(), \x27學習日誌\x27)]"⟩,
    ⟨"xpath", "//a[contains(text(), \x27日誌\x27)]"⟩,
    ⟨"xpath", "//a[contains(@href, \x27PunchList_A\x27)]"⟩,
    ⟨"xpath", "//li//a[contains(text(), \x27學習日誌\x27)]"⟩,
    ⟨"xpath", "//ul//a[contains(text(), \x27學習日誌\x27)]"⟩,
    ⟨"xpath", "//div//a[contains(text(), \x27學習日誌\x27)]"⟩]

/-! ## `SeleniumBot.auto_fill_journals` (src/main.py lines 1183-1279) -/

/-- One record of `results['details']` (lines 1228-1234). -/
structure Detail where
  date : Date
  content : String
  school_id : String
  success : Bool
deriving DecidableEq, Repr

/-- The `results` dictionary returned by `auto_fill_journals`. -/
structure BatchResult where
  total : Nat
  success : Nat
  failed : Nat
  details : List Detail
deriving DecidableEq, Repr

/-- Observable actions of one run: collaborator invocations and callback
events, in program order. -/
inductive Event where
  | login (ok : Bool)
  | navigate (ok : Bool)
  | progress (processed total succeeded failed : Nat)
  | fill (date : Date) (content : String)
deriving DecidableEq, Repr

/-- The environment's answers for one run: the result of `self.login()`, of
the initial `navigate_to_journal()`, the value returned by `stop_callback()`
at loop iteration `i` (`true` = keep running, matching
`if stop_callback and not stop_callback(): break`; a missing callback is
`fun _ => true`), the boolean returned by `fill_journal_entry` for day `i`,
and whether the ignored inter-day re-navigation at lines 1246-1251 succeeds. -/
structure Oracle where
  loginOk : Bool
  navOk : Bool
  keepRunning : Nat → Bool
  fillOk : Nat → Bool
  navLoopOk : Nat → Bool

/-- The `for i, date in enumerate(dates)` loop of `auto_fill_journals`
(lines 1211-1251), returning the final success/failed counters, the details
list, and the events emitted, given the counters accumulated so far. -/
def fillLoop (o : Oracle) (school_id base : String) (n : Nat) :
    List Date → Nat → Nat → Nat → Nat × Nat × List Detail × List Event
  | [], _, s, f => (s, f, [], [])
  | date :: rest, i, s, f =>
    if o.keepRunning i then
      let content := generate_content base i
      let ok := o.fillOk i
      let s1 := if ok then s + 1 else s
      let f1 := if ok then f else f + 1
      let navEvs : List Event :=
        if rest.isEmpty then [] else [Event.navigate (o.navLoopOk i)]
      let r := fillLoop o school_id base n rest (i + 1) s1 f1
      (r.1, r.2.1, ⟨date, content, school_id, ok⟩ :: r.2.2.1,
        Event.progress (i + 1) n s f :: Event.fill date content ::
          (navEvs ++ r.2.2.2))
    else (s, f, [], [])

/-- `SeleniumBot.auto_fill_journals`. Early returns on login or navigation
failure (lines 1193-1200). If `generate_dates` raises (`OverflowError` past
`datetime.max`), the exception is caught by the outer handler at line 1268
before `results['total']` is assigned at line 1204, so the initial all-zero
`results` is returned. An empty date range raises `IndexError` at the
`dates[0]` log line 1207, caught the same way but after `total = len(dates)
= 0` was assigned — in both raising paths the loop and the final progress
callback are skipped and `{total: 0, success: 0, failed: 0, details: []}` is
returned. Otherwise the loop runs and the final progress event
`(len(dates), len(dates), success, failed)` is emitted (lines 1253-1255). -/
def auto_fill_journals (o : Oracle) (start_date end_date : Date)
    (base_content school_id : String) : BatchResult × List Event :=
  if ! o.loginOk then (⟨0, 0, 0, []⟩, [Event.login false])
  else if ! o.navOk then (⟨0, 0, 0, []⟩, [Event.login true, Event.navigate false])
  else
    match generate_dates start_date end_date with
    | none => (⟨0, 0, 0, []⟩, [Event.login true, Event.navigate true])
    | some dates =>
      if dates.isEmpty then (⟨0, 0, 0, []⟩, [Event.login true, Event.navigate true])
      else
        let r := fillLoop o school_id base_content dates.length dates 0 0 0
        (⟨dates.length, r.1, r.2.1, r.2.2.1⟩,
          Event.login true :: Event.navigate true ::
            (r.2.2.2 ++ [Event.progress dates.length dates.length r.1 r.2.1]))

/-- Recognise submitter invocations in a trace. -/
def isFillEvent : Event → Bool
  | .fill _ _ => true
  | _ => false

/-- Recognise navigator invocations in a trace. -/
def isNavigateEvent : Event → Bool
  | .navigate _ => true
  | _ => false

/-! ## Concrete data used by witnesses and counterexamples -/

/-- An environment in which everything succeeds and no stop is requested. -/
def oracleAllTrue : Oracle :=
  ⟨true, true, fun _ => true, fun _ => true, fun _ => true⟩

/-- An environment that requests cancellation from iteration 3, with every
inter-day re-navigation failing. -/
def oracleStopAt3 : Oracle :=
  ⟨true, true, fun i => decide (i < 3), fun _ => true, fun _ => false⟩

/-- An environment whose first inter-day re-navigation fails. -/
def oracleNavLoopFails : Oracle :=
  ⟨true, true, fun _ => true, fun i => decide (i % 2 = 0), fun _ => false⟩

/-- An environment in which login fails. -/
def oracleLoginFails : Oracle :=
  ⟨false, true, fun _ => true, fun _ => true, fun _ => true⟩

/-! ### Calendar lemmas -/

theorem isLeap_iff (y : Nat) :
    isLeap y = true ↔ ((y % 4 = 0 ∧ y % 100 ≠ 0) ∨ y % 400 = 0) := by
  simp [isLeap]

theorem monthLen_pos (b : Bool) (m : Nat) : 1 ≤ monthLen b m := by
  unfold monthLen
  split <;> split <;> omega

theorem monthLen_le (b : Bool) (m : Nat) : monthLen b m ≤ 31 := by
  unfold monthLen
  split <;> split <;> omega

theorem monthsBefore_succ (b : Bool) (m : Nat) (hm : 1 ≤ m) :
    monthsBefore b (m + 1) = monthsBefore b m + monthLen b m := by
  match m, hm with
  | (k + 1), _ => rfl

theorem monthsBefore_mono (b : Bool) {a c : Nat} (h : a ≤ c) :
    monthsBefore b a ≤ monthsBefore b c := by
  induction c with
  | zero =>
    have ha : a = 0 := by omega
    simp [ha]
  | succ n ih =>
    by_cases he : a = n + 1
    · simp [he]
    · have ha : a ≤ n := by omega
      have h1 := ih ha
      rcases Nat.eq_zero_or_pos n with h0 | hpos
      · subst h0
        have : a = 0 := by omega
        simp [this, monthsBefore]
      · have h2 := monthsBefore_succ b n hpos
        have h3 := monthLen_pos b n
        omega

theorem monthsBefore_13 (b : Bool) :
    monthsBefore b 13 = 365 + (if b = true then 1 else 0) := by
  cases b <;> rfl

theorem leapsBefore_succ (y : Nat) :
    leapsBefore (y + 1) = leapsBefore y + (if isLeap (y + 1) = true then 1 else 0) := by
  by_cases h : isLeap (y + 1) = true
  · rw [if_pos h]
    have hc := (isLeap_iff (y + 1)).mp h
    unfold leapsBefore
    omega
  · rw [if_neg h]
    have hc : ¬(((y + 1) % 4 = 0 ∧ (y + 1) % 100 ≠ 0) ∨ (y + 1) % 400 = 0) :=
      fun hx => h ((isLeap_iff (y + 1)).mpr hx)
    unfold leapsBefore
    omega

theorem leapsBefore_mono {a c : Nat} (h : a ≤ c) : leapsBefore a ≤ leapsBefore c := by
  induction c with
  | zero =>
    have : a = 0 := by omega
    simp [this]
  | succ n ih =>
    by_cases he : a = n + 1
    · simp [he]
    · have h1 := ih (by omega)
      have h2 := leapsBefore_succ n
      split at h2 <;> omega

theorem validDate_iff (d : Date) :
    validDate d = true ↔
      (1 ≤ d.year ∧ d.year ≤ 9999 ∧ 1 ≤ d.month ∧ d.month ≤ 12 ∧ 1 ≤ d.day ∧
        d.day ≤ daysInMonth d.year d.month) := by
  simp [validDate]

theorem validDate_maxDate : validDate maxDate = true := by decide

theorem dateLe_maxDate (d : Date) (hd : validDate d = true) : dateLe d maxDate := by
  obtain ⟨hy, hy9, hm1, hm2, hd1, hd2⟩ := (validDate_iff d).mp hd
  have hdim : daysInMonth d.year d.month ≤ 31 := monthLen_le _ _
  simp only [dateLe, maxDate]
  omega

theorem validDate_nextDay (d : Date) (hd : validDate d = true)
    (hne : d ≠ maxDate) : validDate (nextDay d) = true := by
  obtain ⟨hy, hy9, hm1, hm2, hd1, hd2⟩ := (validDate_iff d).mp hd
  unfold nextDay
  split
  · rename_i h
    simp only [validDate_iff]
    exact ⟨hy, hy9, hm1, hm2, by omega, by omega⟩
  · split
    · simp only [validDate_iff]
      exact ⟨hy, hy9, by omega, by omega, by omega, monthLen_pos _ _⟩
    · rename_i hnd hm12
      have hy8 : d.year ≤ 9998 := by
        by_contra hcon
        apply hne
        have hym : d.year = 9999 := by omega
        have hm : d.month = 12 := by omega
        have hday : d.day = daysInMonth d.year d.month := by omega
        have hdim : daysInMonth d.year d.month = 31 := by
          rw [hym, hm]; decide
        obtain ⟨y, m, dy⟩ := d
        simp only at hym hm hday hdim
        simp only [maxDate, Date.mk.injEq]
        omega
      simp only [validDate_iff]
      exact ⟨by omega, by omega, by omega, by omega, by omega, monthLen_pos _ _⟩

theorem toOrdinal_nextDay (d : Date) (hd : validDate d = true) :
    toOrdinal (nextDay d) = toOrdinal d + 1 := by
  obtain ⟨hy, hy9, hm1, hm2, hd1, hd2⟩ := (validDate_iff d).mp hd
  simp only [daysInMonth] at hd2
  unfold nextDay
  split
  · simp only [toOrdinal]
    omega
  · rename_i hnd
    simp only [daysInMonth] at hnd
    split
    · rename_i hm12
      have hs := monthsBefore_succ (isLeap d.year) d.month hm1
      simp only [toOrdinal, daysBeforeMonth]
      omega
    · rename_i hm12
      have hm : d.month = 12 := by omega
      have h13 := monthsBefore_13 (isLeap d.year)
      have hsucc := monthsBefore_succ (isLeap d.year) 12 (by omega)
      have h12p1 : (12 : Nat) + 1 = 13 := rfl
      rw [h12p1] at hsucc
      have hlp := leapsBefore_succ (d.year - 1)
      rw [Nat.sub_add_cancel hy] at hlp
      simp only [toOrdinal, daysBeforeMonth, Nat.add_sub_cancel]
      rw [hm] at hd2 hnd ⊢
      have hmb1 : monthsBefore (isLeap (d.year + 1)) 1 = 0 := rfl
      rw [hmb1]
      by_cases hb : isLeap d.year = true
      · rw [if_pos hb] at h13 hlp
        omega
      · rw [if_neg hb] at h13 hlp
        omega

theorem toOrdinal_year_bounds (d : Date) (hd : validDate d = true) :
    365 * (d.year - 1) + leapsBefore (d.year - 1) + 1 ≤ toOrdinal d ∧
      toOrdinal d ≤ 365 * d.year + leapsBefore d.year := by
  obtain ⟨hy, hy9, hm1, hm2, hd1, hd2⟩ := (validDate_iff d).mp hd
  simp only [daysInMonth] at hd2
  constructor
  · simp only [toOrdinal]
    omega
  · have hs := monthsBefore_succ (isLeap d.year) d.month hm1
    have hmono := monthsBefore_mono (isLeap d.year) (show d.month + 1 ≤ 13 by omega)
    have h13 := monthsBefore_13 (isLeap d.year)
    have hlp := leapsBefore_succ (d.year - 1)
    rw [Nat.sub_add_cancel hy] at hlp
    simp only [toOrdinal, daysBeforeMonth]
    by_cases hb : isLeap d.year = true
    · rw [if_pos hb] at h13 hlp
      omega
    · rw [if_neg hb] at h13 hlp
      omega

theorem dateLe_refl (a : Date) : dateLe a a := by
  unfold dateLe
  omega

theorem dateLe_of_not_lt {a b : Date} (h : ¬ dateLt a b) : dateLe b a := by
  unfold dateLt at h
  unfold dateLe
  omega

theorem dateLt_of_not_le {a b : Date} (h : ¬ dateLe a b) : dateLt b a := by
  unfold dateLe at h
  unfold dateLt
  omega

theorem dateLe_antisymm {a b : Date} (h1 : dateLe a b) (h2 : dateLe b a) : a = b := by
  obtain ⟨ya, ma, da⟩ := a
  obtain ⟨yb, mb, db⟩ := b
  unfold dateLe at h1 h2
  simp only [Date.mk.injEq]
  dsimp only at h1 h2
  omega

theorem toOrdinal_lt_of_dateLt {a b : Date} (ha : validDate a = true)
    (hb : validDate b = true) (h : dateLt a b) : toOrdinal a < toOrdinal b := by
  obtain ⟨hya, hya9, hma1, hma2, hda1, hda2⟩ := (validDate_iff a).mp ha
  obtain ⟨hyb, hyb9, hmb1, hmb2, hdb1, hdb2⟩ := (validDate_iff b).mp hb
  rcases h with hy | ⟨hy, hm | ⟨hm, hd⟩⟩
  · have h1 := (toOrdinal_year_bounds a ha).2
    have h2 := (toOrdinal_year_bounds b hb).1
    have h3 : 365 * a.year ≤ 365 * (b.year - 1) := by
      have : a.year ≤ b.year - 1 := by omega
      omega
    have h4 : leapsBefore a.year ≤ leapsBefore (b.year - 1) :=
      leapsBefore_mono (by omega)
    omega
  · simp only [daysInMonth] at hda2
    have hs := monthsBefore_succ (isLeap a.year) a.month hma1
    have hmono := monthsBefore_mono (isLeap a.year) (show a.month + 1 ≤ b.month by omega)
    simp only [toOrdinal, daysBeforeMonth]
    rw [hy] at hda2 hs hmono ⊢
    omega
  · simp only [toOrdinal, daysBeforeMonth]
    rw [hy, hm]
    omega

theorem dateLe_iff_toOrdinal {a b : Date} (ha : validDate a = true)
    (hb : validDate b = true) : dateLe a b ↔ toOrdinal a ≤ toOrdinal b := by
  constructor
  · intro h
    by_cases heq : a = b
    · subst heq; omega
    · have hlt : dateLt a b := by
        obtain ⟨ya, ma, da⟩ := a
        obtain ⟨yb, mb, db⟩ := b
        unfold dateLe at h
        unfold dateLt
        simp only [Date.mk.injEq] at heq
        dsimp only at h ⊢
        omega
      exact Nat.le_of_lt (toOrdinal_lt_of_dateLt ha hb hlt)
  · intro h
    by_contra hnle
    have := toOrdinal_lt_of_dateLt hb ha (dateLt_of_not_le hnle)
    omega

theorem toOrdinal_inj {a b : Date} (ha : validDate a = true)
    (hb : validDate b = true) (h : toOrdinal a = toOrdinal b) : a = b :=
  dateLe_antisymm ((dateLe_iff_toOrdinal ha hb).mpr (by omega))
    ((dateLe_iff_toOrdinal hb ha).mpr (by omega))

theorem dateLt_of_toOrdinal_lt {a b : Date} (ha : validDate a = true)
    (hb : validDate b = true) (h : toOrdinal a < toOrdinal b) : dateLt a b := by
  by_contra hn
  have := (dateLe_iff_toOrdinal hb ha).mp (dateLe_of_not_lt hn)
  omega

theorem toOrdinal_le_maxDate (d : Date) (hd : validDate d = true) :
    toOrdinal d ≤ toOrdinal maxDate :=
  (dateLe_iff_toOrdinal hd validDate_maxDate).mp (dateLe_maxDate d hd)

theorem ne_maxDate_of_toOrdinal_lt {d : Date}
    (h : toOrdinal d < toOrdinal maxDate) : d ≠ maxDate := by
  intro he
  rw [he] at h
  omega

theorem iterate_facts (s : Date) (hs : validDate s = true) :
    ∀ k, toOrdinal s + k ≤ toOrdinal maxDate →
      validDate (nextDay^[k] s) = true ∧
      toOrdinal (nextDay^[k] s) = toOrdinal s + k := by
  intro k
  induction k with
  | zero =>
    intro _
    simp only [Function.iterate_zero_apply]
    exact ⟨hs, by omega⟩
  | succ n ih =>
    intro hb
    obtain ⟨hv, ho⟩ := ih (by omega)
    have hne : nextDay^[n] s ≠ maxDate :=
      ne_maxDate_of_toOrdinal_lt (by omega)
    rw [Function.iterate_succ_apply']
    refine ⟨validDate_nextDay _ hv hne, ?_⟩
    rw [toOrdinal_nextDay _ hv, ho]
    omega

theorem validDate_iterate (s : Date) (hs : validDate s = true) (k : Nat)
    (hb : toOrdinal s + k ≤ toOrdinal maxDate) :
    validDate (nextDay^[k] s) = true :=
  (iterate_facts s hs k hb).1

theorem toOrdinal_iterate (s : Date) (hs : validDate s = true) (k : Nat)
    (hb : toOrdinal s + k ≤ toOrdinal maxDate) :
    toOrdinal (nextDay^[k] s) = toOrdinal s + k :=
  (iterate_facts s hs k hb).2

/-! ### `generate_dates` lemmas -/

theorem generate_dates_go_eq (end_ : Date) (he : validDate end_ = true)
    (hemax : toOrdinal end_ < toOrdinal maxDate) :
    ∀ (fuel : Nat) (current : Date), validDate current = true →
      fuel = toOrdinal end_ + 1 - toOrdinal current →
      generate_dates_go end_ fuel current =
        some ((List.range fuel).map (fun k => nextDay^[k] current)) := by
  intro fuel
  induction fuel with
  | zero => intro current _ _; rfl
  | succ n ih =>
    intro current hcur hfuel
    have hle : toOrdinal current ≤ toOrdinal end_ := by omega
    have hcle : dateLe current end_ := (dateLe_iff_toOrdinal hcur he).mpr hle
    have hcne : current ≠ maxDate := ne_maxDate_of_toOrdinal_lt (by omega)
    have hnv : validDate (nextDay current) = true := validDate_nextDay _ hcur hcne
    have hadd : dateAddOneDay current = some (nextDay current) := by
      unfold dateAddOneDay
      rw [if_pos]
      exact ((validDate_iff _).mp hnv).2.1
    simp only [generate_dates_go, if_pos hcle, hadd]
    have hnext : n = toOrdinal end_ + 1 - toOrdinal (nextDay current) := by
      rw [toOrdinal_nextDay current hcur]; omega
    rw [ih (nextDay current) hnv hnext]
    rw [List.range_succ_eq_map]
    simp [Function.iterate_succ_apply, List.map_map, Function.comp_def]

theorem generate_dates_go_overflow :
    ∀ (fuel : Nat) (current : Date), validDate current = true →
      fuel = toOrdinal maxDate + 1 - toOrdinal current →
      generate_dates_go maxDate fuel current = none := by
  intro fuel
  induction fuel with
  | zero =>
    intro current hcur hfuel
    have := toOrdinal_le_maxDate current hcur
    omega
  | succ n ih =>
    intro current hcur hfuel
    have hle : toOrdinal current ≤ toOrdinal maxDate := toOrdinal_le_maxDate current hcur
    have hcle : dateLe current maxDate := dateLe_maxDate current hcur
    by_cases hcm : current = maxDate
    · subst hcm
      simp only [generate_dates_go, if_pos hcle]
      have : dateAddOneDay maxDate = none := by decide
      rw [this]
    · have hlt : toOrdinal current < toOrdinal maxDate := by
        rcases Nat.lt_or_ge (toOrdinal current) (toOrdinal maxDate) with h | h
        · exact h
        · exact absurd (toOrdinal_inj hcur validDate_maxDate (by omega)) hcm
      have hnv : validDate (nextDay current) = true := validDate_nextDay _ hcur hcm
      have hadd : dateAddOneDay current = some (nextDay current) := by
        unfold dateAddOneDay
        rw [if_pos]
        exact ((validDate_iff _).mp hnv).2.1
      simp only [generate_dates_go, if_pos hcle, hadd]
      have hnext : n = toOrdinal maxDate + 1 - toOrdinal (nextDay current) := by
        rw [toOrdinal_nextDay current hcur]; omega
      rw [ih (nextDay current) hnv hnext]

theorem generate_dates_eq (s e : Date) (hs : validDate s = true)
    (he : validDate e = true) (hemax : e ≠ maxDate) :
    generate_dates s e =
      some ((List.range (toOrdinal e + 1 - toOrdinal s)).map (fun k => nextDay^[k] s)) := by
  have hlt : toOrdinal e < toOrdinal maxDate := by
    have h1 := toOrdinal_le_maxDate e he
    rcases Nat.lt_or_ge (toOrdinal e) (toOrdinal maxDate) with h | h
    · exact h
    · exact absurd (toOrdinal_inj he validDate_maxDate (by omega)) hemax
  exact generate_dates_go_eq e he hlt _ s hs rfl

theorem generate_dates_overflow (s : Date) (hs : validDate s = true) :
    generate_dates s maxDate = none :=
  generate_dates_go_overflow _ s hs rfl

theorem generate_dates_some_eq (s e : Date) (hs : validDate s = true)
    (he : validDate e = true) (dates : List Date)
    (hgen : generate_dates s e = some dates) :
    dates = (List.range (toOrdinal e + 1 - toOrdinal s)).map (fun k => nextDay^[k] s) := by
  by_cases hemax : e = maxDate
  · subst hemax
    rw [generate_dates_overflow s hs] at hgen
    simp at hgen
  · rw [generate_dates_eq s e hs he hemax] at hgen
    exact ((Option.some.injEq _ _).mp hgen).symm

theorem generate_dates_some_getElem? (s e : Date) (hs : validDate s = true)
    (he : validDate e = true) (dates : List Date)
    (hgen : generate_dates s e = some dates) (k : Nat) :
    dates[k]? =
      if k < toOrdinal e + 1 - toOrdinal s then some (nextDay^[k] s) else none := by
  rw [generate_dates_some_eq s e hs he dates hgen]
  simp only [List.getElem?_map]
  split
  · rename_i h
    rw [List.getElem?_range h]
    rfl
  · rename_i h
    rw [List.getElem?_eq_none (by simpa using Nat.le_of_not_lt h)]
    rfl

/-! ### `fillLoop` lemmas -/

theorem fillLoop_progress_inv (o : Oracle) (sid b : String) (n : Nat) :
    ∀ (dates : List Date) (i s f : Nat), s + f = i → i + dates.length ≤ n →
      ∀ p t su fa, Event.progress p t su fa ∈ (fillLoop o sid b n dates i s f).2.2.2 →
        su + fa + 1 = p ∧ p ≤ t ∧ t = n := by
  intro dates
  induction dates with
  | nil =>
    intro i s f h1 h2 p t su fa hmem
    simp [fillLoop] at hmem
  | cons date rest ih =>
    intro i s f h1 h2 p t su fa hmem
    simp only [fillLoop] at hmem
    by_cases hk : o.keepRunning i
    · rw [if_pos hk] at hmem
      simp only [List.mem_cons, List.mem_append] at hmem
      rcases hmem with h | h | h | h
      · simp only [Event.progress.injEq] at h
        simp only [List.length_cons] at h2
        omega
      · simp at h
      · split at h <;> simp at h
      · have hnext := ih (i + 1) (if o.fillOk i = true then s + 1 else s)
          (if o.fillOk i = true then f else f + 1)
          (by split <;> omega) (by simp at h2; omega) p t su fa h
        exact hnext
    · rw [if_neg hk] at hmem
      simp at hmem

theorem fillLoop_counts (o : Oracle) (sid b : String) (n : Nat) :
    ∀ (dates : List Date) (i s f : Nat),
      (fillLoop o sid b n dates i s f).1 + (fillLoop o sid b n dates i s f).2.1 =
        s + f + (fillLoop o sid b n dates i s f).2.2.1.length ∧
      (fillLoop o sid b n dates i s f).2.2.1.length ≤ dates.length := by
  intro dates
  induction dates with
  | nil => intro i s f; simp [fillLoop]
  | cons date rest ih =>
    intro i s f
    simp only [fillLoop]
    by_cases hk : o.keepRunning i
    · rw [if_pos hk]
      simp only [List.length_cons]
      by_cases hok : o.fillOk i = true
      · simp only [if_pos hok]
        have h := ih (i + 1) (s + 1) f
        omega
      · simp only [if_neg hok]
        have h := ih (i + 1) s (f + 1)
        omega
    · rw [if_neg hk]
      simp

theorem fillLoop_details (o : Oracle) (sid b : String) (n : Nat) :
    ∀ (dates : List Date) (i s f j : Nat),
      j < (fillLoop o sid b n dates i s f).2.2.1.length →
      ∃ dd, dates[j]? = some dd ∧
        (fillLoop o sid b n dates i s f).2.2.1[j]? =
          some ⟨dd, generate_content b (i + j), sid, o.fillOk (i + j)⟩ ∧
        Event.fill dd (generate_content b (i + j)) ∈
          (fillLoop o sid b n dates i s f).2.2.2 := by
  intro dates
  induction dates with
  | nil => intro i s f j hj; simp [fillLoop] at hj
  | cons date rest ih =>
    intro i s f j hj
    simp only [fillLoop] at hj ⊢
    by_cases hk : o.keepRunning i
    · rw [if_pos hk] at hj ⊢
      match j with
      | 0 =>
        refine ⟨date, by simp, by simp, ?_⟩
        simp [Nat.add_zero]
      | j' + 1 =>
        simp only [List.length_cons, Nat.add_lt_add_iff_right] at hj
        obtain ⟨dd, hdd1, hdd2, hdd3⟩ := ih (i + 1)
          (if o.fillOk i = true then s + 1 else s)
          (if o.fillOk i = true then f else f + 1) j' hj
        refine ⟨dd, by simpa using hdd1, ?_, ?_⟩
        · have : i + 1 + j' = i + (j' + 1) := by omega
          rw [this] at hdd2
          simpa using hdd2
        · have : i + 1 + j' = i + (j' + 1) := by omega
          rw [this] at hdd3
          simp only [List.mem_cons, List.mem_append]
          exact Or.inr (Or.inr (Or.inr hdd3))
    · rw [if_neg hk] at hj
      simp at hj

theorem fillLoop_keep_len (o : Oracle) (sid b : String) (n : Nat) :
    ∀ (dates : List Date) (i s f k : Nat),
      (∀ m, m ≤ k → o.keepRunning (i + m) = true) → k < dates.length →
      k < (fillLoop o sid b n dates i s f).2.2.1.length := by
  intro dates
  induction dates with
  | nil => intro i s f k _ hk; simp at hk
  | cons date rest ih =>
    intro i s f k hkeep hk
    have hk0 : o.keepRunning i = true := by
      have := hkeep 0 (by omega)
      simpa using this
    simp only [fillLoop, if_pos hk0, List.length_cons]
    match k with
    | 0 => omega
    | k' + 1 =>
      have hk' : k' < rest.length := by simpa using hk
      have hkeep' : ∀ m, m ≤ k' → o.keepRunning (i + 1 + m) = true := by
        intro m hm
        have := hkeep (m + 1) (by omega)
        have he : i + (m + 1) = i + 1 + m := by omega
        rwa [he] at this
      have := ih (i + 1) (if o.fillOk i = true then s + 1 else s)
        (if o.fillOk i = true then f else f + 1) k' hkeep' hk'
      omega

theorem fillLoop_cancel (o : Oracle) (sid b : String) (n : Nat) :
    ∀ (dates : List Date) (i s f k : Nat),
      (∀ m, m < k → o.keepRunning (i + m) = true) →
      o.keepRunning (i + k) = false → k ≤ dates.length →
      (fillLoop o sid b n dates i s f).2.2.1.length = k ∧
      ((fillLoop o sid b n dates i s f).2.2.2.filter isFillEvent).length = k := by
  intro dates
  induction dates with
  | nil =>
    intro i s f k _ _ hk
    have : k = 0 := by simpa using hk
    simp [fillLoop, this]
  | cons date rest ih =>
    intro i s f k hkeep hstop hk
    match k with
    | 0 =>
      simp only [Nat.add_zero] at hstop
      simp [fillLoop, hstop]
    | k' + 1 =>
      have hk0 : o.keepRunning i = true := by
        have := hkeep 0 (by omega)
        simpa using this
      have hkeep' : ∀ m, m < k' → o.keepRunning (i + 1 + m) = true := by
        intro m hm
        have := hkeep (m + 1) (by omega)
        have he : i + (m + 1) = i + 1 + m := by omega
        rwa [he] at this
      have hstop' : o.keepRunning (i + 1 + k') = false := by
        have he : i + (k' + 1) = i + 1 + k' := by omega
        rwa [he] at hstop
      have hk' : k' ≤ rest.length := by simpa using hk
      obtain ⟨hlen, hfills⟩ := ih (i + 1) (if o.fillOk i = true then s + 1 else s)
        (if o.fillOk i = true then f else f + 1) k' hkeep' hstop' hk'
      simp only [fillLoop, if_pos hk0, List.length_cons, List.filter_cons,
        List.filter_append]
      constructor
      · omega
      · simp only [isFillEvent]
        have hnav : ((if rest.isEmpty then ([] : List Event)
            else [Event.navigate (o.navLoopOk i)]).filter isFillEvent) = [] := by
          split <;> simp [isFillEvent]
        rw [hnav]
        simp [hfills]

/-! ### String and digit helpers -/

theorem string_mk_length (l : List Char) : (String.mk l).length = l.length := rfl

theorem string_data_append (a b : String) : (a ++ b).data = a.data ++ b.data := rfl

set_option maxRecDepth 4096 in
theorem toDigits_lt1000 : ∀ n, n < 1000 →
    ((Nat.toDigits 10 n).length ≤ 3 ∧
      (Nat.toDigits 10 n).all (fun c => c.isDigit) = true) := by decide

set_option maxRecDepth 2048 in
theorem toDigits_lt100 : ∀ n, n < 100 → (Nat.toDigits 10 n).length ≤ 2 := by decide

theorem padNum_length (w n : Nat) : (padNum w n).length =
    max w (Nat.toDigits 10 n).length := by
  unfold padNum
  rw [string_mk_length, List.length_append, List.length_replicate]
  omega

theorem padNum_digits (w n : Nat)
    (h : (Nat.toDigits 10 n).all (fun c => c.isDigit) = true) :
    (padNum w n).data.all (fun c => c.isDigit) = true := by
  unfold padNum
  show (List.replicate _ '0' ++ Nat.toDigits 10 n).all (fun c => c.isDigit) = true
  rw [List.all_append]
  simp only [Bool.and_eq_true]
  constructor
  · rw [List.all_eq_true]
    intro c hc
    have hc' := List.eq_of_mem_replicate hc
    subst hc'
    decide
  · exact h

/-! ### Claim theorems -/

/-- C3 (amended): for every valid Gregorian date with 1911 < year ≤ 2910 (so
that the era-year `year - 1911` has at most 3 decimal digits), the conversion
at src/main.py lines 963-966 yields a 7-character numeric string: the
era-year zero-padded to 3 digits, then the 2-digit month, then the 2-digit
day, with no separators. (For year > 2910 the era-year needs more than 3
digits and `%03d` does not truncate, so the string is longer than 7
characters — see the counterexample.) -/
theorem era_conversion_C3 (d : Date) (hv : validDate d = true)
    (h1 : 1911 < d.year) (h2 : d.year ≤ 2910) :
    (toDomesticEra d).length = 7 ∧
    (toDomesticEra d).data.all (fun c => c.isDigit) = true ∧
    toDomesticEra d = padNum 3 (d.year - 1911) ++ padNum 2 d.month ++ padNum 2 d.day := by
  obtain ⟨hy, hm1, hm2, hd1, hd2⟩ := (validDate_iff d).mp hv
  have hdim : daysInMonth d.year d.month ≤ 31 := monthLen_le _ _
  have hroc : d.year - 1911 < 1000 := by omega
  have hmon : d.month < 100 := by omega
  have hday : d.day < 100 := by omega
  have f1 := toDigits_lt1000 _ hroc
  have f2 := toDigits_lt100 _ hmon
  have f3 := toDigits_lt100 _ hday
  have f2' := toDigits_lt1000 _ (show d.month < 1000 by omega)
  have f3' := toDigits_lt1000 _ (show d.day < 1000 by omega)
  refine ⟨?_, ?_, rfl⟩
  · unfold toDomesticEra
    rw [String.length_append, String.length_append, padNum_length, padNum_length,
      padNum_length]
    omega
  · unfold toDomesticEra
    rw [string_data_append, string_data_append]
    simp only [List.all_append]
    rw [padNum_digits _ _ f1.2, padNum_digits _ _ f2'.2, padNum_digits _ _ f3'.2]
    rfl

/-- C3 counterexample: the year 2912 gives a valid Gregorian date with
year > 1911 whose conversion is the 8-character string "10010101", refuting
the claim that every valid date with year > 1911 yields 7 characters. -/
theorem era_conversion_C3_counterexample :
    validDate ⟨2912, 1, 1⟩ = true ∧ 1911 < (2912 : Nat) ∧
    toDomesticEra ⟨2912, 1, 1⟩ = "10010101" ∧ (toDomesticEra ⟨2912, 1, 1⟩).length ≠ 7 := by
  refine ⟨by decide, by decide, by decide, by decide⟩

/-- C3 witness: the amended theorem applied at 2024-03-05, together with the
spec's worked examples 2024-03-05 → "1130305" and 1999-12-31 → "0881231". -/
theorem era_conversion_C3_witness :
    (toDomesticEra ⟨2024, 3, 5⟩).length = 7 ∧
    toDomesticEra ⟨2024, 3, 5⟩ = "1130305" ∧
    toDomesticEra ⟨1999, 12, 31⟩ = "0881231" :=
  ⟨(era_conversion_C3 ⟨2024, 3, 5⟩ (by decide) (by decide) (by decide)).1,
    by decide, by decide⟩

/-- C4: the post-submission classifier scans positive markers first (returning
success, the boolean `True` of lines 1164-1166), then negative markers
(explicit failure, `False`), else the ambiguous outcome, whose boolean `True`
is counted as a succeeded day by `auto_fill_journals`; in particular a page
with both a positive and a negative marker classifies as success, and the
returned boolean is `True` exactly when the outcome is not explicit failure. -/
theorem classify_C4 (page : String) :
    (containsAny page positiveMarkers = true →
      classify_outcome page = .success ∧ fill_entry_result page = true) ∧
    (containsAny page positiveMarkers = false →
      containsAny page negativeMarkers = true →
      classify_outcome page = .explicitFailure ∧ fill_entry_result page = false) ∧
    (containsAny page positiveMarkers = false →
      containsAny page negativeMarkers = false →
      classify_outcome page = .ambiguous ∧ fill_entry_result page = true) ∧
    (containsAny page positiveMarkers = true →
      containsAny page negativeMarkers = true → classify_outcome page = .success) ∧
    (fill_entry_result page = true ↔ classify_outcome page ≠ .explicitFailure) := by
  unfold classify_outcome fill_entry_result
  cases hp : containsAny page positiveMarkers <;>
    cases hn : containsAny page negativeMarkers <;> simp

/-- C4 witness: a page containing both 成功 and 錯誤 classifies as success; a
page with only 錯誤 is an explicit failure; a page with neither marker set is
ambiguous and its boolean result is `True` (counted as success). -/
theorem classify_C4_witness :
    classify_outcome "新增成功但有錯誤" = .success ∧
    classify_outcome "發生錯誤" = .explicitFailure ∧
    classify_outcome "plain page" = .ambiguous ∧
    fill_entry_result "plain page" = true := by
  refine ⟨(classify_C4 "新增成功但有錯誤").2.2.2.1 (by decide) (by decide),
    ((classify_C4 "發生錯誤").2.1 (by decide) (by decide)).1,
    ((classify_C4 "plain page").2.2.1 (by decide) (by decide)).1,
    ((classify_C4 "plain page").2.2.1 (by decide) (by decide)).2⟩

/-- C8 (amended): `generate_content` returns the base content with leading
and trailing whitespace stripped (Python `base_content.strip()`, line 930),
not the base content verbatim; it ignores the day index, so the content is
identical across all days of the range. -/
theorem generate_content_C8 (base : String) (i j : Nat) :
    generate_content base i = pyStrip base ∧
    generate_content base i = generate_content base j :=
  ⟨rfl, rfl⟩

/-- C8 counterexample: a base content with surrounding whitespace is not
returned unchanged — `generate_content " 內容 " 0` is `"內容"`. -/
theorem generate_content_C8_counterexample :
    generate_content " 內容 " 0 ≠ " 內容 " ∧ generate_content " 內容 " 0 = "內容" := by
  refine ⟨by decide, by decide⟩

/-- C9: first-hit resolution over an ordered candidate list — the resolver
returns `none` exactly when every candidate fails; if every candidate before
index `i` fails and candidate `i` resolves, the result is candidate `i`'s
element (even when later candidates would also resolve); in particular for
candidates [A (absent), B (present), C (present)] the result is B's element. -/
theorem resolve_C9 {α : Type} (env : LocatorCandidate → Option α) :
    (∀ cs : List LocatorCandidate, resolve env cs = none ↔ ∀ c ∈ cs, env c = none) ∧
    (∀ (cs : List LocatorCandidate) (i : Nat) (ci : LocatorCandidate) (x : α),
      (∀ j, j < i → ∀ cj, cs[j]? = some cj → env cj = none) →
      cs[i]? = some ci → env ci = some x → resolve env cs = some x) ∧
    (∀ (a bc c : LocatorCandidate) (x y : α),
      env a = none → env bc = some x → env c = some y →
      resolve env [a, bc, c] = some x) := by
  refine ⟨?_, ?_, ?_⟩
  · intro cs
    induction cs with
    | nil => simp [resolve]
    | cons c rest ih =>
      simp only [resolve]
      cases h : env c with
      | some el => simp [h]
      | none => simp [h, ih]
  · intro cs
    induction cs with
    | nil => intro i ci x _ hci _; simp at hci
    | cons c rest ih =>
      intro i ci x hprev hci hx
      match i with
      | 0 =>
        simp only [List.getElem?_cons_zero, Option.some.injEq] at hci
        subst hci
        simp [resolve, hx]
      | i' + 1 =>
        have hc0 : env c = none := hprev 0 (by omega) c (by simp)
        simp only [resolve, hc0]
        exact ih i' ci x
          (fun j hj cj hcj => hprev (j + 1) (by omega) cj (by simpa using hcj))
          (by simpa using hci) hx
  · intro a bc c x y ha hb hc
    simp [resolve, ha, hb]

/-- C9 witness: the spec's [A absent, B present, C present] scenario — the
resolver returns B's element, not C's, on a concrete environment. -/
theorem resolve_C9_witness :
    resolve (fun c => if c.selector = "B" then some 1 else
        if c.selector = "C" then some 2 else none)
      [⟨"id", "A"⟩, ⟨"name", "B"⟩, ⟨"xpath", "C"⟩] = some 1 :=
  (resolve_C9 _).2.2 ⟨"id", "A"⟩ ⟨"name", "B"⟩ ⟨"xpath", "C"⟩ 1 2
    (by decide) (by decide) (by decide)

/-- C5 counterexample: the claim fails at start = end = 9999-12-31, a valid
Gregorian date accepted by `strptime`. The loop appends the date and then
executes `current += timedelta(days=1)`, which raises `OverflowError` past
`datetime.max` (`none` in the model), so the call raises instead of
returning the one-element list. -/
theorem generate_dates_C5_counterexample :
    validDate ⟨9999, 12, 31⟩ = true ∧
    generate_dates ⟨9999, 12, 31⟩ ⟨9999, 12, 31⟩ = none ∧
    generate_dates ⟨9999, 12, 31⟩ ⟨9999, 12, 31⟩ ≠ some [⟨9999, 12, 31⟩] := by
  refine ⟨by decide, by decide, by decide⟩

/-- C5 (amended): for valid dates, `generate_dates` with start = end and
end before 9999-12-31 returns exactly that one date; with start > end it
returns the empty list without raising for every valid end (the loop guard
fails before any increment); for end before 9999-12-31 it returns exactly
the consecutive daily dates from start to end inclusive; any returned list
has head start, last element end, each element the next day of the previous
one, in strictly ascending date order. For start ≤ end = 9999-12-31 (Python
`datetime.MAXYEAR`) the loop's increment overflows and the call raises
`OverflowError` instead of returning. -/
theorem generate_dates_C5 (s e : Date) (hs : validDate s = true)
    (he : validDate e = true) :
    (s = e → e ≠ maxDate → generate_dates s e = some [s]) ∧
    (¬ dateLe s e → generate_dates s e = some []) ∧
    (e ≠ maxDate → generate_dates s e =
      some ((List.range (toOrdinal e + 1 - toOrdinal s)).map (fun k => nextDay^[k] s))) ∧
    (e = maxDate → generate_dates s e = none) ∧
    (∀ dates : List Date, generate_dates s e = some dates →
      (dateLe s e → dates.head? = some s ∧ dates.getLast? = some e) ∧
      List.Chain' (fun a b => b = nextDay a ∧ dateLt a b) dates) := by
  refine ⟨?_, ?_, generate_dates_eq s e hs he, ?_, ?_⟩
  · intro h hemax
    subst h
    rw [generate_dates_eq s s hs hs hemax]
    have h1 : toOrdinal s + 1 - toOrdinal s = 1 := by omega
    rw [h1]
    simp
  · intro h
    have hord : ¬ (toOrdinal s ≤ toOrdinal e) :=
      fun hc => h ((dateLe_iff_toOrdinal hs he).mpr hc)
    unfold generate_dates
    have hf : toOrdinal e + 1 - toOrdinal s = 0 := by omega
    rw [hf]
    rfl
  · intro hemax
    subst hemax
    exact generate_dates_overflow s hs
  · intro dates hgen
    have hemaxord : toOrdinal e ≤ toOrdinal maxDate := toOrdinal_le_maxDate e he
    have hd := generate_dates_some_eq s e hs he dates hgen
    constructor
    · intro hle
      have hord : toOrdinal s ≤ toOrdinal e := (dateLe_iff_toOrdinal hs he).mp hle
      obtain ⟨m, hm⟩ : ∃ m, toOrdinal e + 1 - toOrdinal s = m + 1 :=
        ⟨toOrdinal e - toOrdinal s, by omega⟩
      rw [hd]
      constructor
      · rw [hm, List.range_succ_eq_map]
        simp
      · rw [List.getLast?_eq_getElem?]
        simp only [List.length_map, List.length_range, hm, List.getElem?_map]
        rw [List.getElem?_range (show m + 1 - 1 < m + 1 by omega)]
        have hit : nextDay^[m] s = e := by
          apply toOrdinal_inj (validDate_iterate s hs _ (by omega)) he
          rw [toOrdinal_iterate s hs _ (by omega)]
          omega
        simp [hit]
    · rw [hd]
      rw [List.chain'_iff_get]
      intro i hi
      simp only [List.get_eq_getElem, List.length_map, List.length_range,
        List.getElem_map, List.getElem_range] at hi ⊢
      have hb1 : toOrdinal s + (i + 1) ≤ toOrdinal maxDate := by omega
      constructor
      · exact Function.iterate_succ_apply' nextDay i s
      · apply dateLt_of_toOrdinal_lt (validDate_iterate s hs i (by omega))
          (validDate_iterate s hs (i + 1) hb1)
        rw [toOrdinal_iterate s hs i (by omega), toOrdinal_iterate s hs (i + 1) hb1]
        omega

/-- C5 witness: the February 2024 leap boundary — a one-day range, the last
element across 2024-02-28..2024-03-01, an inverted range yielding `some []`,
and the `OverflowError` (`none`) on a range ending at `datetime.max`. -/
theorem generate_dates_C5_witness :
    generate_dates ⟨2024, 2, 28⟩ ⟨2024, 2, 28⟩ = some [⟨2024, 2, 28⟩] ∧
    ([⟨2024, 2, 28⟩, ⟨2024, 2, 29⟩, ⟨2024, 3, 1⟩] : List Date).getLast? =
      some ⟨2024, 3, 1⟩ ∧
    generate_dates ⟨2024, 3, 1⟩ ⟨2024, 2, 28⟩ = some [] ∧
    generate_dates ⟨9999, 12, 30⟩ ⟨9999, 12, 31⟩ = none := by
  refine ⟨(generate_dates_C5 ⟨2024, 2, 28⟩ ⟨2024, 2, 28⟩ (by decide) (by decide)).1
      rfl (by decide),
    (((generate_dates_C5 ⟨2024, 2, 28⟩ ⟨2024, 3, 1⟩ (by decide)
      (by decide)).2.2.2.2 [⟨2024, 2, 28⟩, ⟨2024, 2, 29⟩, ⟨2024, 3, 1⟩]
      (by decide)).1 (by decide)).2,
    (generate_dates_C5 ⟨2024, 3, 1⟩ ⟨2024, 2, 28⟩ (by decide)
      (by decide)).2.1 (by decide),
    (generate_dates_C5 ⟨9999, 12, 30⟩ ⟨9999, 12, 31⟩ (by decide)
      (by decide)).2.2.2.1 (by decide)⟩

/-- Unfolding of `auto_fill_journals` when login and the initial navigation
succeed, `generate_dates` returns normally, and the range is nonempty. -/
theorem auto_fill_journals_main (o : Oracle) (s e : Date) (b sid : String)
    (dates : List Date) (hl : o.loginOk = true) (hn : o.navOk = true)
    (hgen : generate_dates s e = some dates) (hne : dates.isEmpty = false) :
    auto_fill_journals o s e b sid =
      (⟨dates.length,
        (fillLoop o sid b dates.length dates 0 0 0).1,
        (fillLoop o sid b dates.length dates 0 0 0).2.1,
        (fillLoop o sid b dates.length dates 0 0 0).2.2.1⟩,
        Event.login true :: Event.navigate true ::
          ((fillLoop o sid b dates.length dates 0 0 0).2.2.2 ++
            [Event.progress dates.length dates.length
              (fillLoop o sid b dates.length dates 0 0 0).1
              (fillLoop o sid b dates.length dates 0 0 0).2.1])) := by
  unfold auto_fill_journals
  rw [hl, hn]
  simp only [Bool.not_true, Bool.false_eq_true, if_false, hgen, hne]

/-- C6: if authentication fails, `auto_fill_journals` returns
`BatchResult{total: 0, succeeded: 0, failed: 0}` with an empty detail list,
and its trace contains no navigator invocation and no submitter invocation
(the function returns at line 1196 before either collaborator is called). -/
theorem auth_failure_C6 (o : Oracle) (s e : Date) (b sid : String)
    (hl : o.loginOk = false) :
    (auto_fill_journals o s e b sid).1 = ⟨0, 0, 0, []⟩ ∧
    (auto_fill_journals o s e b sid).2.filter isNavigateEvent = [] ∧
    (auto_fill_journals o s e b sid).2.filter isFillEvent = [] := by
  unfold auto_fill_journals
  rw [hl]
  simp [isNavigateEvent, isFillEvent]

/-- C6 witness: the theorem applied to a concrete failing-login environment
over the range 2024-01-01..2024-01-03. -/
theorem auth_failure_C6_witness :
    (auto_fill_journals oracleLoginFails ⟨2024, 1, 1⟩ ⟨2024, 1, 3⟩ "內容" "S123").1 =
      ⟨0, 0, 0, []⟩ ∧
    (auto_fill_journals oracleLoginFails ⟨2024, 1, 1⟩ ⟨2024, 1, 3⟩
      "內容" "S123").2.filter isNavigateEvent = [] ∧
    (auto_fill_journals oracleLoginFails ⟨2024, 1, 1⟩ ⟨2024, 1, 3⟩
      "內容" "S123").2.filter isFillEvent = [] :=
  auth_failure_C6 oracleLoginFails ⟨2024, 1, 1⟩ ⟨2024, 1, 3⟩ "內容" "S123" rfl

/-- C1 counterexample: the claim `succeeded + failed = processed` at every
progress event is false — the driver emits the progress event at line 1222
before recording the day's outcome, so on an all-success one-day run the
event `(processed 1, total 1, succeeded 0, failed 0)` is emitted, where
`0 + 0 ≠ 1`. -/
theorem progress_invariant_C1_counterexample :
    ¬ (∀ p t su fa, Event.progress p t su fa ∈
        (auto_fill_journals oracleAllTrue ⟨2024, 1, 1⟩ ⟨2024, 1, 1⟩ "內容" "S123").2 →
        su + fa = p) := by
  intro h
  have h1 := h 1 1 0 0 (by decide)
  omega

/-- C1 (amended): at every progress event of every run, the reported
processed count never exceeds the reported total; and either the event is a
per-day event, emitted before the day's outcome is recorded, so that
`succeeded + failed + 1 = processed`, or it is the final event, where
`processed = total` and `succeeded + failed ≤ total` (with equality exactly
when no cancellation occurred). -/
theorem progress_invariant_C1 (o : Oracle) (s e : Date) (b sid : String) :
    ∀ p t su fa, Event.progress p t su fa ∈ (auto_fill_journals o s e b sid).2 →
      p ≤ t ∧ (su + fa + 1 = p ∨ (p = t ∧ su + fa ≤ t)) := by
  intro p t su fa hmem
  cases hl : o.loginOk with
  | false =>
    unfold auto_fill_journals at hmem
    rw [hl] at hmem
    simp at hmem
  | true =>
    cases hn : o.navOk with
    | false =>
      unfold auto_fill_journals at hmem
      rw [hl, hn] at hmem
      simp at hmem
    | true =>
      cases hgen : generate_dates s e with
      | none =>
        unfold auto_fill_journals at hmem
        rw [hl, hn] at hmem
        simp [hgen] at hmem
      | some dates =>
        cases hne : dates.isEmpty with
        | true =>
          unfold auto_fill_journals at hmem
          rw [hl, hn] at hmem
          simp [hgen, hne] at hmem
        | false =>
          rw [auto_fill_journals_main o s e b sid dates hl hn hgen hne] at hmem
          simp only [List.mem_cons, List.mem_append, List.mem_singleton,
            List.not_mem_nil, or_false] at hmem
          rcases hmem with h | h | h | h
          · simp at h
          · simp at h
          · have := fillLoop_progress_inv o sid b dates.length
              dates 0 0 0 rfl (by omega) p t su fa h
            omega
          · simp only [Event.progress.injEq] at h
            obtain ⟨hp, ht, hsu, hfa⟩ := h
            have hc := fillLoop_counts o sid b dates.length dates 0 0 0
            omega

/-- C1 witness: the amended invariant evaluated at the first per-day progress
event of a concrete one-day run. -/
theorem progress_invariant_C1_witness :
    (1 : Nat) ≤ 1 ∧ ((0 : Nat) + 0 + 1 = 1 ∨ (1 = 1 ∧ (0 : Nat) + 0 ≤ 1)) :=
  progress_invariant_C1 oracleAllTrue ⟨2024, 1, 1⟩ ⟨2024, 1, 1⟩ "內容" "S123"
    1 1 0 0 (by decide)

/-- C2: if login and initial navigation succeed and cancellation is requested
after the k-th day of an n-day range (the stop callback keeps the run alive
for the first k iterations and stops it at iteration k < n), then the
returned `BatchResult` has `total = n` and exactly `k` recorded day outcomes
(`details` has length k and `succeeded + failed = k`), and exactly `k`
submission attempts appear in the trace — none for the remaining dates. -/
theorem cancellation_C2 (o : Oracle) (s e : Date) (b sid : String)
    (dates : List Date) (k : Nat)
    (hl : o.loginOk = true) (hn : o.navOk = true)
    (hgen : generate_dates s e = some dates)
    (hkeep : ∀ m, m < k → o.keepRunning m = true)
    (hstop : o.keepRunning k = false)
    (hk : k < dates.length) :
    (auto_fill_journals o s e b sid).1.total = dates.length ∧
    (auto_fill_journals o s e b sid).1.details.length = k ∧
    (auto_fill_journals o s e b sid).1.success +
      (auto_fill_journals o s e b sid).1.failed = k ∧
    ((auto_fill_journals o s e b sid).2.filter isFillEvent).length = k := by
  have hne : dates.isEmpty = false := by
    cases dates with
    | nil => simp at hk
    | cons a l => rfl
  rw [auto_fill_journals_main o s e b sid dates hl hn hgen hne]
  dsimp only
  have hcancel := fillLoop_cancel o sid b dates.length dates 0 0 0 k
    (fun m hm => by simpa using hkeep m hm) (by simpa using hstop) (by omega)
  have hc := fillLoop_counts o sid b dates.length dates 0 0 0
  refine ⟨rfl, hcancel.1, by omega, ?_⟩
  simp only [List.filter_cons, List.filter_append]
  have h1 : isFillEvent (Event.login true) = false := rfl
  have h2 : isFillEvent (Event.navigate true) = false := rfl
  have h3 : isFillEvent (Event.progress dates.length dates.length
      (fillLoop o sid b dates.length dates 0 0 0).1
      (fillLoop o sid b dates.length dates 0 0 0).2.1) = false := rfl
  rw [h1, h2]
  simp only [Bool.false_eq_true, if_false, List.filter_cons, h3, List.filter_nil,
    List.length_append, List.length_nil]
  have := hcancel.2
  omega

/-- C2 witness: cancellation after day 3 of the 7-day range
2024-01-01..2024-01-07 — total 7, three recorded days, three submission
attempts. -/
theorem cancellation_C2_witness :
    (auto_fill_journals oracleStopAt3 ⟨2024, 1, 1⟩ ⟨2024, 1, 7⟩ "內容" "S123").1.total = 7 ∧
    (auto_fill_journals oracleStopAt3 ⟨2024, 1, 1⟩
      ⟨2024, 1, 7⟩ "內容" "S123").1.details.length = 3 ∧
    ((auto_fill_journals oracleStopAt3 ⟨2024, 1, 1⟩
      ⟨2024, 1, 7⟩ "內容" "S123").2.filter isFillEvent).length = 3 := by
  have h := cancellation_C2 oracleStopAt3 ⟨2024, 1, 1⟩ ⟨2024, 1, 7⟩ "內容" "S123"
    [⟨2024, 1, 1⟩, ⟨2024, 1, 2⟩, ⟨2024, 1, 3⟩, ⟨2024, 1, 4⟩,
      ⟨2024, 1, 5⟩, ⟨2024, 1, 6⟩, ⟨2024, 1, 7⟩] 3
    rfl rfl (by decide) (fun m hm => by simp [oracleStopAt3]; omega)
    (by decide) (by decide)
  exact ⟨h.1, h.2.1, h.2.2.2⟩

/-- C7: a failure of the inter-day re-navigation does not abort the batch —
its result is ignored and any exception is caught (lines 1247-1251). If day
`k` was processed, its re-navigation fails, cancellation is not requested
through iteration `k+1`, and a day `k+1` exists, then day `k+1`'s submission
attempt is still made (a fill event for its date appears in the trace) and
its own outcome `o.fillOk (k+1)` is recorded normally as detail `k+1`. -/
theorem nav_failure_C7 (o : Oracle) (s e : Date) (b sid : String)
    (dates : List Date) (k : Nat)
    (hl : o.loginOk = true) (hn : o.navOk = true)
    (hgen : generate_dates s e = some dates)
    (hkeep : ∀ m, m ≤ k + 1 → o.keepRunning m = true)
    (hnavfail : o.navLoopOk k = false)
    (hk : k + 1 < dates.length) :
    ∃ dd, dates[k + 1]? = some dd ∧
      (auto_fill_journals o s e b sid).1.details[k + 1]? =
        some ⟨dd, generate_content b (k + 1), sid, o.fillOk (k + 1)⟩ ∧
      Event.fill dd (generate_content b (k + 1)) ∈ (auto_fill_journals o s e b sid).2 := by
  have hne : dates.isEmpty = false := by
    cases dates with
    | nil => simp at hk
    | cons a l => rfl
  rw [auto_fill_journals_main o s e b sid dates hl hn hgen hne]
  dsimp only
  have hlen := fillLoop_keep_len o sid b dates.length dates 0 0 0 (k + 1)
    (fun m hm => by simpa using hkeep m hm) hk
  obtain ⟨dd, h1, h2, h3⟩ := fillLoop_details o sid b dates.length
    dates 0 0 0 (k + 1) hlen
  refine ⟨dd, h1, by simpa using h2, ?_⟩
  simp only [List.mem_cons, List.mem_append]
  have h3' : Event.fill dd (generate_content b (k + 1)) ∈
      (fillLoop o sid b dates.length dates 0 0 0).2.2.2 := by
    simpa using h3
  exact Or.inr (Or.inr (Or.inl h3'))

/-- C7 witness: a two-day run whose inter-day re-navigation after day 0
fails; day 1's attempt is still made and its own failing outcome is recorded
as the second detail. -/
theorem nav_failure_C7_witness :
    ∃ dd, ([⟨2024, 1, 1⟩, ⟨2024, 1, 2⟩] : List Date)[1]? = some dd ∧
      (auto_fill_journals oracleNavLoopFails ⟨2024, 1, 1⟩ ⟨2024, 1, 2⟩
        "內容" "S123").1.details[1]? =
        some ⟨dd, generate_content "內容" 1, "S123", oracleNavLoopFails.fillOk 1⟩ ∧
      Event.fill dd (generate_content "內容" 1) ∈
        (auto_fill_journals oracleNavLoopFails ⟨2024, 1, 1⟩ ⟨2024, 1, 2⟩
          "內容" "S123").2 :=
  nav_failure_C7 oracleNavLoopFails ⟨2024, 1, 1⟩ ⟨2024, 1, 2⟩ "內容" "S123"
    [⟨2024, 1, 1⟩, ⟨2024, 1, 2⟩] 0
    rfl rfl (by decide) (fun m _ => rfl) rfl (by decide)

/-- C10: in every run, `succeeded + failed` equals the number of detail
records, the detail list never outgrows `total`, each recorded detail `j` is
exactly `(j-th date of the range, stripped content, school id, submitter
outcome j)` — one record and one counter increment per processed day — and
the recorded dates are strictly ascending. -/
theorem details_invariant_C10 (o : Oracle) (s e : Date) (b sid : String)
    (hs : validDate s = true) (he : validDate e = true) :
    (auto_fill_journals o s e b sid).1.success +
      (auto_fill_journals o s e b sid).1.failed =
      (auto_fill_journals o s e b sid).1.details.length ∧
    (auto_fill_journals o s e b sid).1.details.length ≤
      (auto_fill_journals o s e b sid).1.total ∧
    (∀ j (dtl : Detail), (auto_fill_journals o s e b sid).1.details[j]? = some dtl →
      dtl = ⟨nextDay^[j] s, generate_content b j, sid, o.fillOk j⟩) ∧
    List.Chain' dateLt ((auto_fill_journals o s e b sid).1.details.map Detail.date) := by
  cases hl : o.loginOk with
  | false =>
    unfold auto_fill_journals
    rw [hl]
    simp
  | true =>
    cases hn : o.navOk with
    | false =>
      unfold auto_fill_journals
      rw [hl, hn]
      simp
    | true =>
      cases hgen : generate_dates s e with
      | none =>
        unfold auto_fill_journals
        rw [hl, hn]
        simp [hgen]
      | some dates =>
        cases hne : dates.isEmpty with
        | true =>
          unfold auto_fill_journals
          rw [hl, hn]
          simp [hgen, hne]
        | false =>
          rw [auto_fill_journals_main o s e b sid dates hl hn hgen hne]
          dsimp only
          have hemax : toOrdinal e ≤ toOrdinal maxDate := toOrdinal_le_maxDate e he
          have hdlen : dates.length = toOrdinal e + 1 - toOrdinal s := by
            rw [generate_dates_some_eq s e hs he dates hgen]
            simp
          have hc := fillLoop_counts o sid b dates.length dates 0 0 0
          have hdtl : ∀ j (dtl : Detail),
              (fillLoop o sid b dates.length dates 0 0 0).2.2.1[j]? = some dtl →
              dtl = ⟨nextDay^[j] s, generate_content b j, sid, o.fillOk j⟩ := by
            intro j dtl hj
            have hjlen : j < (fillLoop o sid b dates.length dates 0 0 0).2.2.1.length := by
              by_contra hcon
              rw [List.getElem?_eq_none (by omega)] at hj
              simp at hj
            obtain ⟨dd, hd1, hd2, _⟩ := fillLoop_details o sid b
              dates.length dates 0 0 0 j hjlen
            have hdd : dd = nextDay^[j] s := by
              rw [generate_dates_some_getElem? s e hs he dates hgen] at hd1
              by_cases hj2 : j < toOrdinal e + 1 - toOrdinal s
              · rw [if_pos hj2] at hd1
                exact (Option.some.injEq _ _).mp hd1.symm
              · rw [if_neg hj2] at hd1
                simp at hd1
            rw [hj] at hd2
            simp only [Nat.zero_add] at hd2
            have := (Option.some.injEq _ _).mp hd2
            rw [this, hdd]
          refine ⟨by omega, by omega, hdtl, ?_⟩
          rw [List.chain'_iff_get]
          intro i hi
          simp only [List.length_map] at hi
          have hi1 : i < (fillLoop o sid b dates.length dates 0 0 0).2.2.1.length := by
            omega
          have hi2 : i + 1 < (fillLoop o sid b dates.length dates 0 0 0).2.2.1.length := by
            omega
          have hb2 : toOrdinal s + (i + 1) ≤ toOrdinal maxDate := by omega
          have e1 := hdtl i _ (List.getElem?_eq_getElem hi1)
          have e2 := hdtl (i + 1) _ (List.getElem?_eq_getElem hi2)
          simp only [List.get_eq_getElem, List.getElem_map]
          rw [e1, e2]
          apply dateLt_of_toOrdinal_lt (validDate_iterate s hs i (by omega))
            (validDate_iterate s hs (i + 1) hb2)
          rw [toOrdinal_iterate s hs i (by omega), toOrdinal_iterate s hs (i + 1) hb2]
          omega

/-- C10 witness: the invariant evaluated on a concrete all-success three-day
run. -/
theorem details_invariant_C10_witness :
    (auto_fill_journals oracleAllTrue ⟨2024, 1, 1⟩ ⟨2024, 1, 3⟩ "內容" "S123").1.success +
      (auto_fill_journals oracleAllTrue ⟨2024, 1, 1⟩ ⟨2024, 1, 3⟩ "內容" "S123").1.failed =
      (auto_fill_journals oracleAllTrue ⟨2024, 1, 1⟩
        ⟨2024, 1, 3⟩ "內容" "S123").1.details.length ∧
    List.Chain' dateLt ((auto_fill_journals oracleAllTrue ⟨2024, 1, 1⟩
      ⟨2024, 1, 3⟩ "內容" "S123").1.details.map Detail.date) := by
  have h := details_invariant_C10 oracleAllTrue ⟨2024, 1, 1⟩ ⟨2024, 1, 3⟩ "內容" "S123"
    (by decide) (by decide)
  exact ⟨h.1, h.2.2.2⟩
